import Mathlib

/-!
Verification of the discovery-classify-dedup-merge pipeline implemented in
`scrape_baseline_tools.py` (class `BaselineToolScraper`).

Shallow embedding conventions:
* text (file contents, names, URLs, descriptions) is `List Char`;
* Python dicts keyed by strings are association lists (`Registry`);
* calls to the external classification service are oracle parameters:
  `Option Bool` for the yes/no duplicate similarity call (`none` models the
  call raising, which the source catches), and `ClassifierResult` for the
  batch-analysis call;
* the confidence float is modelled as a rational number; the two boundary
  values exercised below (`69/100` and `7/10`) are exact in both models.
-/

namespace Scraper

/-- ASCII whitespace, as matched by Python `str.strip()` with no argument. -/
def pyIsSpace (c : Char) : Bool :=
  c == ' ' || c == '\t' || c == '\n' || c == '\r' || c == '\x0b' || c == '\x0c'

/-- Python `str.lower()` (ASCII letters; all text in the repository is ASCII). -/
def pyLower (s : List Char) : List Char := s.map Char.toLower

/-- Python `str.strip()`: drop whitespace from both ends. -/
def pyStrip (s : List Char) : List Char :=
  ((s.dropWhile pyIsSpace).reverse.dropWhile pyIsSpace).reverse

/-- Python `str.startswith(p)`: `startsWithL p s` is true when `p` is a prefix of `s`. -/
def startsWithL : List Char → List Char → Bool
  | [], _ => true
  | _ :: _, [] => false
  | p :: ps, c :: cs => p == c && startsWithL ps cs

/-- Python `str.replace("www.", "")` (source lines 316 and 321): remove every
leftmost, non-overlapping occurrence of `www.`. -/
def dropWww : List Char → List Char
  | 'w' :: 'w' :: 'w' :: '.' :: rest => dropWww rest
  | c :: cs => c :: dropWww cs
  | [] => []

/-- The characters Python `urllib.parse` accepts inside a URL scheme. -/
def isSchemeChar (c : Char) : Bool :=
  c.isAlpha || c.isDigit || c == '+' || c == '-' || c == '.'

/-- The scheme-splitting step of Python `urlsplit`: when the text before the
first `:` is a well-formed scheme (a letter followed by scheme characters),
parsing continues on what follows the `:`. -/
def splitScheme (url : List Char) : List Char :=
  match url.findIdx? (fun c => c == ':') with
  | some i =>
    if 0 < i && (url.headD ' ').isAlpha && ((url.take i).drop 1).all isSchemeChar
    then url.drop (i + 1) else url
  | none => url

/-- Python `urlparse(url).netloc`: after scheme removal, the text between a
leading `//` and the next `/`, `?` or `#`; empty when there is no `//`. -/
def netloc (url : List Char) : List Char :=
  match splitScheme url with
  | '/' :: '/' :: r => r.takeWhile (fun c => !(c == '/' || c == '?' || c == '#'))
  | _ => []

/-- A registry entry: the values stored in the `existing_tools` dict. -/
structure KnownTool where
  name : List Char
  url : List Char
  description : List Char
deriving DecidableEq

/-- The `existing_tools` dict: association list from normalized key to entry.
Python dict truthiness (`if tool_data.get('url')`) makes the empty string and
a missing key behave identically, so `url = []` models both. -/
abbrev Registry := List (List Char × KnownTool)

/-- Python `d[k]` / `k in d` on the `existing_tools` dict. -/
def dictGet (k : List Char) : Registry → Option KnownTool
  | [] => none
  | (k1, v) :: rest => if k1 = k then some v else dictGet k rest

/-- Python `d[k] = v`: overwrite in place when the key exists, else append
(dict insertion order). -/
def dictInsert (d : Registry) (k : List Char) (v : KnownTool) : Registry :=
  if (dictGet k d).isSome
  then d.map (fun p => if p.1 = k then (k, v) else p)
  else d ++ [(k, v)]

/-- A candidate produced by the classifier (`tools` objects in the JSON
schema of `analyze_posts_batch`); `url` is `tool.get('url', '')`. -/
structure Tool where
  name : List Char
  category : List Char
  description : List Char
  url : List Char
  confidence : ℚ
deriving DecidableEq

/-- The domain normalization applied to both candidate and registry URLs at
source lines 315-316 and 320-321: `urlparse(u).netloc.lower().replace('www.', '')`. -/
def pyDomain (url : List Char) : List Char := dropWww (pyLower (netloc url))

/-- The URL tier of `is_tool_duplicate` (source lines 313-324): only entered
for a truthy candidate URL; entries with falsy URL are skipped; any equal
normalized domain returns duplicate. -/
def domainTierDup (url : List Char) (existing : Registry) : Bool :=
  if url = [] then false
  else existing.any (fun p => !(p.2.url == []) && (pyDomain p.2.url == pyDomain url))

/-- Embedding of `is_tool_duplicate` (source lines 304-361). Tiers: empty registry is
never a duplicate; exact lowercased-name key lookup; URL domain tier; then
the external similarity call, whose failure (`ai = none`) falls back to the
exact-name test (source line 361). -/
def is_tool_duplicate (new_tool_name new_tool_url : List Char) (existing : Registry)
    (ai : Option Bool) : Bool :=
  if existing = [] then false
  else if (dictGet (pyLower new_tool_name) existing).isSome then true
  else if domainTierDup new_tool_url existing then true
  else match ai with
    | some b => b
    | none => (dictGet (pyLower new_tool_name) existing).isSome

/-- The spec's stated candidate-name normalization, written from the spec's
words ("case-fold, trim"): this is the definition the dedup claims compare
against the source's `new_tool_name.lower()`. -/
def specNormalizedName (s : List Char) : List Char := pyStrip (pyLower s)

/-- The spec's stated URL normalization, written from the spec's words
("strip scheme, strip leading `www.`"): compared against the source's
`netloc.lower().replace('www.', '')`. -/
def specDomain (url : List Char) : List Char :=
  let h := pyLower (netloc url)
  if startsWithL "www.".toList h then h.drop 4 else h

/-- Whether position `k` of `t` can start the `(.+?)` description group of the
fallback regex: there must be a character there and `.` does not match `\n`. -/
def descOk (t : List Char) (k : Nat) : Bool :=
  match t.drop k with
  | [] => false
  | c :: _ => !(c == '\n')

/-- Backtracking of the second `\s*` of `\s*-\s*(.+?)(?=\n|$)`: the largest
whitespace consumption (at most `k`) that still lets the description match. -/
def findDescStart (t : List Char) : Nat → Option Nat
  | 0 => if descOk t 0 then some 0 else none
  | k + 1 => if descOk t (k + 1) then some (k + 1) else findDescStart t k

/-- Match `\s*(.+?)(?=\n|$)` (the part after the literal `-`): greedy
whitespace, then a lazy non-empty run of non-newline characters ending at a
newline or at the end of input. Returns the description capture and the rest
of the input after the match. -/
def matchDashDesc (t : List Char) : Option (List Char × List Char) :=
  match findDescStart t (t.takeWhile pyIsSpace).length with
  | none => none
  | some k =>
    let d := (t.drop k).takeWhile (fun c => !(c == '\n'))
    some (d, (t.drop k).drop d.length)

/-- Try the fallback pattern `\[([^\]]+)\]\(([^\)]+)\)\s*-\s*(.+?)(?=\n|$)`
(source line 286) at the start of `s`. On success returns the three captures
(raw name, url, description) and the input remaining after the match. -/
def matchEntryAt (s : List Char) : Option ((List Char × List Char × List Char) × List Char) :=
  match s with
  | '[' :: s1 =>
    let name := s1.takeWhile (fun c => !(c == ']'))
    if name = [] then none else
    match s1.dropWhile (fun c => !(c == ']')) with
    | ']' :: '(' :: s3 =>
      let url := s3.takeWhile (fun c => !(c == ')'))
      if url = [] then none else
      match s3.dropWhile (fun c => !(c == ')')) with
      | ')' :: s4 =>
        match s4.dropWhile pyIsSpace with
        | '-' :: t2 =>
          match matchDashDesc t2 with
          | some (d, rest) => some ((name, url, d), rest)
          | none => none
        | _ => none
      | _ => none
    | _ => none
  | _ => none

/-- Scan of `re.finditer` over the fallback pattern: leftmost non-overlapping matches,
resuming after each match's end. Every match consumes at least one character
(the leading `[`) and the remainder returned by `matchEntryAt` is a proper
suffix, so fuel equal to the input length never runs out. -/
def finditerEntries : Nat → List Char → List (List Char × List Char × List Char)
  | 0, _ => []
  | _ + 1, [] => []
  | fuel + 1, c :: cs =>
    match matchEntryAt (c :: cs) with
    | some (caps, rest) => caps :: finditerEntries fuel rest
    | none => finditerEntries fuel cs

/-- One regex match processed by `_get_existing_tools_fallback` (source lines
289-300): strip the captures; keep the entry only when the stripped name is
longer than three characters and starts with neither `http` nor `www`; key it
by its lowercased name. -/
def fallbackStep (tools : Registry) (m : List Char × List Char × List Char) : Registry :=
  if 3 < (pyStrip m.1).length
      ∧ ¬(startsWithL "http".toList (pyStrip m.1) = true
          ∨ startsWithL "www".toList (pyStrip m.1) = true)
  then dictInsert tools (pyLower (pyStrip m.1)) ⟨pyStrip m.1, pyStrip m.2.1, pyStrip m.2.2⟩
  else tools

/-- Embedding of `_get_existing_tools_fallback` (source lines 284-302): regex
scan of the document, one `fallbackStep` per match. -/
def get_existing_tools_fallback (content : List Char) : Registry :=
  (finditerEntries content.length content).foldl fallbackStep []

/-- The property every seeded fallback entry satisfies: stripped display name
longer than three characters, not starting with `http` or `www`, keyed by its
lowercased name. -/
def validFallbackEntry (p : List Char × KnownTool) : Prop :=
  3 < p.2.name.length
  ∧ startsWithL "http".toList p.2.name = false
  ∧ startsWithL "www".toList p.2.name = false
  ∧ p.1 = pyLower p.2.name

/-- First index at which `pat` occurs as a contiguous substring of `s`
(`re.search` of an escaped literal pattern). -/
def findSubstr (pat : List Char) : List Char → Option Nat
  | [] => if startsWithL pat [] then some 0 else none
  | c :: cs =>
    if startsWithL pat (c :: cs) then some 0
    else (findSubstr pat cs).map (· + 1)

/-- Python `'\n'.join`. -/
def joinLines : List (List Char) → List Char
  | [] => []
  | [e] => e
  | e :: es => e ++ '\n' :: joinLines es

/-- Entry formatting `- [{name}]({url}) - {description}` (source line 404). -/
def formatEntry (t : Tool) : List Char :=
  "- [".toList ++ t.name ++ "](".toList ++ t.url ++ ") - ".toList ++ t.description

/-- The `end_pos` computation of `update_readme` (source lines 390-399): position of the next
`\n## ` occurrence at or after `startPos`, or the document length. -/
def sectionEnd (content : List Char) (startPos : Nat) : Nat :=
  match findSubstr "\n## ".toList (content.drop startPos) with
  | some j => startPos + j
  | none => content.length

/-- One category update of `update_readme` (source lines 384-410): search for
the literal `## {category}\n`; when absent the document is returned unchanged;
when present, insert `'\n' + '\n'.join(entries) + '\n'` just before the next
`\n## ` occurrence after the heading (or at the end of the document). -/
def insertIntoCategory (content : List Char) (category : List Char)
    (entries : List (List Char)) : List Char :=
  match findSubstr ("## ".toList ++ category ++ ['\n']) content with
  | none => content
  | some i =>
    if entries = [] then content
    else
      content.take (sectionEnd content (i + ("## ".toList ++ category ++ ['\n']).length))
        ++ '\n' :: (joinLines entries ++ '\n'
          :: content.drop (sectionEnd content (i + ("## ".toList ++ category ++ ['\n']).length)))

/-- One step of building `tools_by_category` (source lines 374-379): group
tools by category, dict insertion order (first occurrence of each category). -/
def addToGroups (acc : List (List Char × List Tool)) (t : Tool) :
    List (List Char × List Tool) :=
  if acc.any (fun p => p.1 == t.category)
  then acc.map (fun p => if p.1 = t.category then (p.1, p.2 ++ [t]) else p)
  else acc ++ [(t.category, [t])]

/-- Grouping `tools_by_category` (source lines 374-379). -/
def groupByCategory (tools : List Tool) : List (List Char × List Tool) :=
  tools.foldl addToGroups []

/-- The text transformation of `update_readme` (source lines 363-414): early
return on an empty tool list, otherwise one insertion pass per category. -/
def update_readme_text (content : List Char) (new_tools : List Tool) : List Char :=
  if new_tools = [] then content
  else (groupByCategory new_tools).foldl
    (fun c p => insertIntoCategory c p.1 (p.2.map formatEntry)) content

/-- One iteration of the dedup/confidence filter loop in `run` (source lines
446-457): a candidate passing both gates is appended to `new_tools` and
registered into `existing_tools` under its lowercased name, immediately. -/
def runFilterStep (st : Registry × List Tool) (p : Tool × Option Bool) :
    Registry × List Tool :=
  if is_tool_duplicate p.1.name p.1.url st.1 p.2 = false ∧ (7 / 10 : ℚ) ≤ p.1.confidence
  then (dictInsert st.1 (pyLower p.1.name) ⟨p.1.name, p.1.url, p.1.description⟩,
        st.2 ++ [p.1])
  else st

/-- The dedup/confidence filter loop of `run` over `all_found_tools`, each
candidate paired with the oracle outcome of its potential similarity call. -/
def runFilter (existing : Registry) (found : List (Tool × Option Bool)) :
    Registry × List Tool :=
  found.foldl runFilterStep (existing, [])

/-- A feed post as built by `scrape_blog_posts` (source lines 44-51). -/
structure Post where
  url : List Char
  title : List Char
  summary : List Char
  published : List Char
deriving DecidableEq

/-- One element of `posts_data` in `analyze_posts_batch`. -/
structure PostData where
  id : Nat
  title : List Char
  summary : List Char
  content : List Char
deriving DecidableEq

/-- One element of the `posts` array of the classifier's JSON reply. -/
structure PostAnalysis where
  has_baseline_tools : Bool
  tools : List Tool

/-- Outcome of the batch classification call (source lines 195-220): the call
raises; the reply holds no `{...}` match; `json.loads` raises on the match;
or a parsed reply with its `posts` array (`analysis.get('posts', [])`). -/
inductive ClassifierResult where
  | apiError
  | noJsonMatch
  | badJson
  | parsed (analyses : List PostAnalysis)

/-- The `posts_data` construction of `analyze_posts_batch` (source lines
114-127), with `fetch` standing for `get_post_content` (which returns empty
text on any retrieval failure): posts with empty content are skipped; a short
content is prefixed by a truthy summary; content is capped at 1000 characters. -/
def buildPostsData (fetch : Post → List Char) : Nat → List Post → List PostData
  | _, [] => []
  | i, p :: ps =>
    let content := fetch p
    if content = [] then buildPostsData fetch (i + 1) ps
    else
      { id := i, title := p.title, summary := p.summary,
        content := (if p.summary ≠ [] ∧ content.length < 500
                    then p.summary ++ "\n\n".toList ++ content
                    else content).take 1000 } :: buildPostsData fetch (i + 1) ps

/-- Embedding of `analyze_posts_batch` (source lines 110-220). Returns the flattened tool
list and whether the classification service was invoked at all. An empty
`posts_data` returns before any call; every failure mode of the call yields
zero candidates; a parsed reply contributes the `tools` of each post analysis
whose `has_baseline_tools` and `tools` fields are truthy. -/
def analyze_posts_batch (fetch : Post → List Char) (classify : ClassifierResult)
    (posts_batch : List Post) : List Tool × Bool :=
  if buildPostsData fetch 0 posts_batch = [] then ([], false)
  else
    match classify with
    | .apiError => ([], true)
    | .noJsonMatch => ([], true)
    | .badJson => ([], true)
    | .parsed analyses =>
      (analyses.foldl
        (fun acc a => if a.has_baseline_tools && !(a.tools == []) then acc ++ a.tools else acc)
        [], true)

/-- The driver's control flow around document mutation (source lines
434-469): no posts means an early return with no write; an empty filtered
tool list skips `update_readme`; otherwise the document is rewritten once.
The second component records whether the document file was written.
`key_present` models the process environment; `run()` itself never consults
it (the in-`run` check at lines 425-428 is commented out) — the credential
is enforced earlier, in `__init__`, see `runProcess`. -/
def runDriver (_key_present : Bool) (content : List Char) (existing : Registry)
    (posts : List Post) (found : List (Tool × Option Bool)) : List Char × Bool :=
  if posts = [] then (content, false)
  else
    let new_tools := (runFilter existing found).2
    if new_tools = [] then (content, false)
    else (update_readme_text content new_tools, true)

/-- A whole process run, `BaselineToolScraper()` then `.run()` (source lines
471-473). Construction executes `__init__`, whose `OpenAI(api_key=OPENAI_KEY)`
call (line 26, openai v1 client) raises `OpenAIError` when no credential is
available in the process environment, so the process aborts — reported via
the uncaught exception — before `run()` starts and before the persisted
document is even read. Result: (final document content, document written,
aborted at startup). -/
def runProcess (key_present : Bool) (content : List Char) (existing : Registry)
    (posts : List Post) (found : List (Tool × Option Bool)) :
    List Char × Bool × Bool :=
  if key_present then
    ((runDriver key_present content existing posts found).1,
     (runDriver key_present content existing posts found).2, false)
  else (content, false, true)

/-- Split a text into its lines at `'\n'` (used to state the line-preservation
properties of the merger; `splitNL s` always has at least one element). -/
def splitNL : List Char → List (List Char)
  | [] => [[]]
  | c :: cs =>
    if c = '\n' then [] :: splitNL cs
    else
      match splitNL cs with
      | l :: ls => (c :: l) :: ls
      | [] => [[c]]

/-! ### Association-list lemmas -/

theorem dictGet_append_left {k : List Char} {d d2 : Registry} {v : KnownTool}
    (h : dictGet k d = some v) : dictGet k (d ++ d2) = some v := by
  induction d with
  | nil => simp [dictGet] at h
  | cons p rest ih =>
    obtain ⟨k1, v1⟩ := p
    by_cases hk : k1 = k
    · simp [dictGet, hk] at h ⊢
      exact h
    · simp [dictGet, hk] at h ⊢
      exact ih h

theorem dictGet_append_right {k : List Char} {d d2 : Registry}
    (h : dictGet k d = none) : dictGet k (d ++ d2) = dictGet k d2 := by
  induction d with
  | nil => simp
  | cons p rest ih =>
    obtain ⟨k1, v1⟩ := p
    by_cases hk : k1 = k
    · simp [dictGet, hk] at h
    · simp [dictGet, hk] at h ⊢
      exact ih h

theorem dictGet_some_ne_nil {k : List Char} {d : Registry} {v : KnownTool}
    (h : dictGet k d = some v) : d ≠ [] := by
  intro hnil
  rw [hnil] at h
  simp [dictGet] at h

theorem dictGet_insert_fresh {k : List Char} {d : Registry} {v : KnownTool}
    (h : dictGet k d = none) : dictGet k (dictInsert d k v) = some v := by
  unfold dictInsert
  rw [h]
  simp only [Option.isSome_none, Bool.false_eq_true, if_false]
  rw [dictGet_append_right h]
  simp [dictGet]

theorem dictGet_insert_other {k knew : List Char} {d : Registry} {v vnew : KnownTool}
    (hfresh : dictGet knew d = none) (h : dictGet k d = some v) :
    dictGet k (dictInsert d knew vnew) = some v := by
  unfold dictInsert
  rw [hfresh]
  simp only [Option.isSome_none, Bool.false_eq_true, if_false]
  exact dictGet_append_left h

/-! ### C1: startup abort with a missing credential -/

/-- C1: when the classification-service credential is absent from the
process environment, every run aborts at startup: `BaselineToolScraper()`
(line 472) raises inside `__init__` at the `OpenAI(api_key=OPENAI_KEY)`
constructor call (line 26, openai v1), before `run()` executes — so the
final document equals the input document, nothing is written, and the abort
flag is set; and startup aborts exactly when the credential is absent, for
every document, registry, post list and classifier outcome. -/
theorem C1_startup_abort (content : List Char) (existing : Registry)
    (posts : List Post) (found : List (Tool × Option Bool)) :
    runProcess false content existing posts found = (content, false, true)
    ∧ ∀ kp, ((runProcess kp content existing posts found).2.2 = true ↔ kp = false) := by
  refine ⟨rfl, ?_⟩
  intro kp
  cases kp <;> simp [runProcess]

/-! ### C2: the exact-name dedup tier -/

/-- C2 (amended): a candidate whose lowercased name — the source applies
`.lower()` with no trim (line 310) — is a key of a non-empty registry is
always judged a duplicate by `is_tool_duplicate`, for every URL and every
outcome of the external similarity call, hence regardless of confidence and
without consulting the URL or semantic tiers. -/
theorem C2_exact_dedup (name url : List Char) (reg : Registry) (ai : Option Bool)
    (hne : reg ≠ []) (hk : (dictGet (pyLower name) reg).isSome = true) :
    is_tool_duplicate name url reg ai = true := by
  unfold is_tool_duplicate
  simp [hne, hk]

theorem C2_exact_dedup_witness :
    is_tool_duplicate "ESLint".toList "https://other.io".toList
      [("eslint".toList, ⟨"ESLint".toList, [], []⟩)] (some false) = true :=
  C2_exact_dedup "ESLint".toList "https://other.io".toList
    [("eslint".toList, ⟨"ESLint".toList, [], []⟩)] (some false)
    (by decide) (by decide)

/-- C2 (counterexample to the claim as stated): the claim normalizes by
case-folding *and trimming surrounding whitespace*. The candidate name
`" eslint "` trim-normalizes to the registry key `eslint`, yet the source's
exact tier looks up `" eslint ".lower()` untrimmed and misses, and the
outcome then depends on the semantic tier (it differs for the two oracle
answers), contradicting both the rejection and the independence parts. -/
theorem C2_counterexample :
    specNormalizedName " eslint ".toList = "eslint".toList
    ∧ (dictGet "eslint".toList [("eslint".toList, ⟨"ESLint".toList, [], []⟩)]).isSome = true
    ∧ is_tool_duplicate " eslint ".toList []
        [("eslint".toList, ⟨"ESLint".toList, [], []⟩)] (some false) = false
    ∧ is_tool_duplicate " eslint ".toList []
        [("eslint".toList, ⟨"ESLint".toList, [], []⟩)] (some true) = true :=
  ⟨by decide, by decide, by decide, by decide⟩

/-! ### C3: the URL-domain dedup tier -/

/-- C3 (amended): the domain tier lowercases `urlparse(u).netloc` and removes
*every* occurrence of `www.` (Python `str.replace`, not only a leading one);
it fires exactly when the candidate URL is truthy and some registry entry
with truthy URL has an equal normalized domain, and its firing makes
`is_tool_duplicate` return true for every oracle outcome. The spec's concrete
example (`https://www.example.com/x` vs registered `http://example.com/`)
holds. -/
theorem C3_domain_dedup (name url : List Char) (reg : Registry) (ai : Option Bool) :
    (domainTierDup url reg = true ↔
      url ≠ [] ∧ ∃ k kt, (k, kt) ∈ reg ∧ kt.url ≠ [] ∧ pyDomain kt.url = pyDomain url)
    ∧ (reg ≠ [] → domainTierDup url reg = true →
        is_tool_duplicate name url reg ai = true)
    ∧ is_tool_duplicate "NewTool".toList "https://www.example.com/x".toList
        [("exampletool".toList, ⟨"ExampleTool".toList, "http://example.com/".toList, []⟩)]
        (some false) = true := by
  refine ⟨?_, ?_, by decide⟩
  · unfold domainTierDup
    by_cases hu : url = []
    · simp [hu]
    · simp only [hu, if_false, ne_eq, not_false_eq_true, true_and, List.any_eq_true]
      constructor
      · rintro ⟨⟨k, kt⟩, hmem, hp⟩
        simp only [Bool.and_eq_true, Bool.not_eq_true', beq_eq_false_iff_ne, ne_eq,
          beq_iff_eq] at hp
        exact ⟨k, kt, hmem, hp.1, hp.2⟩
      · rintro ⟨k, kt, hmem, hurl, hdom⟩
        refine ⟨(k, kt), hmem, ?_⟩
        simp only [Bool.and_eq_true, Bool.not_eq_true', beq_eq_false_iff_ne, ne_eq,
          beq_iff_eq]
        exact ⟨hurl, hdom⟩
  · intro hne hd
    unfold is_tool_duplicate
    by_cases hk : (dictGet (pyLower name) reg).isSome = true
    · simp [hne, hk]
    · simp [hne, hk, hd]

theorem C3_domain_dedup_witness :
    is_tool_duplicate "SomeTool".toList "https://www.example.com/x".toList
      [("other".toList, ⟨"Other".toList, "http://example.com/".toList, []⟩)] none = true :=
  (C3_domain_dedup "SomeTool".toList "https://www.example.com/x".toList
    [("other".toList, ⟨"Other".toList, "http://example.com/".toList, []⟩)] none).2.1
    (by decide) (by decide)

/-- C3 (counterexample to the claim as stated): the claim says normalization
strips only a *leading* `www.` and that the tier fires exactly on equality of
those normalized domains. For the candidate URL `https://a.www.b.com/x` and a
registered `http://a.b.com/`, the claimed normalizations differ, yet the
source's `replace('www.', '')` removes the interior `www.` and judges them
duplicates. -/
theorem C3_counterexample :
    specDomain "https://a.www.b.com/x".toList ≠ specDomain "http://a.b.com/".toList
    ∧ domainTierDup "https://a.www.b.com/x".toList
        [("t".toList, ⟨"T".toList, "http://a.b.com/".toList, []⟩)] = true
    ∧ is_tool_duplicate "SomeTool".toList "https://a.www.b.com/x".toList
        [("t".toList, ⟨"T".toList, "http://a.b.com/".toList, []⟩)] (some false) = true :=
  ⟨by decide, by decide, by decide⟩

/-! ### C4: the confidence gate -/

/-- C4: in the driver loop (source line 448) a non-duplicate candidate is
accepted exactly when its confidence is at least `0.7`; the boundary is
inclusive (`0.69` rejected, `0.70` accepted). The gate sits in the driver,
conjoined after the duplicate check; `is_tool_duplicate` itself never
receives the confidence. -/
theorem C4_confidence_gate (reg : Registry) (ts : List Tool) (tool : Tool)
    (ai : Option Bool)
    (hdup : is_tool_duplicate tool.name tool.url reg ai = false) :
    ((runFilterStep (reg, ts) (tool, ai)).2 = ts ++ [tool] ↔ (7 / 10 : ℚ) ≤ tool.confidence)
    ∧ (tool.confidence = 69 / 100 → (runFilterStep (reg, ts) (tool, ai)).2 = ts)
    ∧ (tool.confidence = 7 / 10 → (runFilterStep (reg, ts) (tool, ai)).2 = ts ++ [tool]) := by
  unfold runFilterStep
  by_cases hc : (7 / 10 : ℚ) ≤ tool.confidence
  · refine ⟨by simp [hdup, hc], ?_, fun _ => by simp [hdup, hc]⟩
    intro h69
    rw [h69] at hc
    norm_num at hc
  · refine ⟨by simp [hdup, hc], fun _ => by simp [hdup, hc], ?_⟩
    intro h70
    rw [h70] at hc
    norm_num at hc

theorem C4_confidence_gate_witness :
    (runFilterStep (([] : Registry), ([] : List Tool))
        (⟨"Alpha".toList, "CSS Tools".toList, "d".toList, [], 7 / 10⟩, none)).2
      = [⟨"Alpha".toList, "CSS Tools".toList, "d".toList, [], 7 / 10⟩]
    ∧ (runFilterStep (([] : Registry), ([] : List Tool))
        (⟨"Beta".toList, "CSS Tools".toList, "d".toList, [], 69 / 100⟩, none)).2 = [] := by
  constructor
  · exact (C4_confidence_gate [] [] _ none (by decide)).2.2 rfl
  · exact (C4_confidence_gate [] [] _ none (by decide)).2.1 rfl

/-! ### C7: registry monotonicity and read-your-writes -/

theorem accepted_key_fresh {st1 : Registry} {name url : List Char} {ai : Option Bool}
    (hdup : is_tool_duplicate name url st1 ai = false) :
    dictGet (pyLower name) st1 = none := by
  by_cases hne : st1 = []
  · rw [hne]; rfl
  · by_cases hk : (dictGet (pyLower name) st1).isSome = true
    · unfold is_tool_duplicate at hdup
      simp [hne, hk] at hdup
    · exact Option.not_isSome_iff_eq_none.mp (by simpa using hk)

theorem runFilterStep_rejected {st : Registry × List Tool} {p : Tool × Option Bool}
    (h : is_tool_duplicate p.1.name p.1.url st.1 p.2 = true) :
    runFilterStep st p = st := by
  unfold runFilterStep
  rw [if_neg]
  intro hcond
  rw [h] at hcond
  exact absurd hcond.1 (by simp)

theorem runFilterStep_registry_mono {k : List Char} {v : KnownTool}
    (st : Registry × List Tool) (p : Tool × Option Bool)
    (h : dictGet k st.1 = some v) : dictGet k (runFilterStep st p).1 = some v := by
  unfold runFilterStep
  by_cases hcond : is_tool_duplicate p.1.name p.1.url st.1 p.2 = false
      ∧ (7 / 10 : ℚ) ≤ p.1.confidence
  · rw [if_pos hcond]
    exact dictGet_insert_other (accepted_key_fresh hcond.1) h
  · rw [if_neg hcond]
    exact h

theorem runFilter_foldl_registry_mono {k : List Char} {v : KnownTool}
    (found : List (Tool × Option Bool)) :
    ∀ st : Registry × List Tool, dictGet k st.1 = some v →
      dictGet k (found.foldl runFilterStep st).1 = some v := by
  induction found with
  | nil => intro st h; simpa using h
  | cons p rest ih =>
    intro st h
    simp only [List.foldl_cons]
    exact ih (runFilterStep st p) (runFilterStep_registry_mono st p h)

theorem runFilter_foldl_invariant (found : List (Tool × Option Bool)) :
    ∀ st : Registry × List Tool,
      (∀ t ∈ st.2, dictGet (pyLower t.name) st.1 = some ⟨t.name, t.url, t.description⟩) →
      ∀ t ∈ (found.foldl runFilterStep st).2,
        dictGet (pyLower t.name) (found.foldl runFilterStep st).1
          = some ⟨t.name, t.url, t.description⟩ := by
  induction found with
  | nil => intro st h; simpa using h
  | cons p rest ih =>
    intro st h
    simp only [List.foldl_cons]
    apply ih
    intro t ht
    unfold runFilterStep at ht ⊢
    by_cases hcond : is_tool_duplicate p.1.name p.1.url st.1 p.2 = false
        ∧ (7 / 10 : ℚ) ≤ p.1.confidence
    · rw [if_pos hcond] at ht ⊢
      have hfresh := accepted_key_fresh hcond.1
      simp only [List.mem_append, List.mem_singleton] at ht
      rcases ht with ht | ht
      · exact dictGet_insert_other hfresh (h t ht)
      · rw [ht]
        exact dictGet_insert_fresh hfresh
    · rw [if_neg hcond] at ht ⊢
      exact h t ht

/-- C7: over the filter loop of `run` (source lines 446-457) the registry
only grows — every pre-existing binding is still present, unmodified, at the
end — every accepted candidate is registered under its lowercased name the
moment it is accepted, and a candidate processed later in the same run whose
lowercased name matches an already-accepted one is rejected as a duplicate
(read-your-writes), for every outcome of its similarity call. -/
theorem C7_registry_monotone (existing : Registry) (found : List (Tool × Option Bool)) :
    (∀ k v, dictGet k existing = some v → dictGet k (runFilter existing found).1 = some v)
    ∧ (∀ t ∈ (runFilter existing found).2,
        dictGet (pyLower t.name) (runFilter existing found).1
          = some ⟨t.name, t.url, t.description⟩)
    ∧ (∀ t ∈ (runFilter existing found).2, ∀ t1 ai1, pyLower t1.name = pyLower t.name →
        (runFilter existing (found ++ [(t1, ai1)])).2 = (runFilter existing found).2) := by
  have hpart2 : ∀ t ∈ (runFilter existing found).2,
      dictGet (pyLower t.name) (runFilter existing found).1
        = some ⟨t.name, t.url, t.description⟩ := by
    apply runFilter_foldl_invariant
    intro t ht
    simp at ht
  refine ⟨?_, hpart2, ?_⟩
  · intro k v h
    exact runFilter_foldl_registry_mono found (existing, []) h
  · intro t ht t1 ai1 hname
    unfold runFilter
    rw [List.foldl_append]
    simp only [List.foldl_cons, List.foldl_nil]
    have hkey : dictGet (pyLower t1.name) (found.foldl runFilterStep (existing, [])).1
        = some ⟨t.name, t.url, t.description⟩ := by
      rw [hname]
      exact hpart2 t ht
    have hdup : is_tool_duplicate t1.name t1.url
        (found.foldl runFilterStep (existing, [])).1 ai1 = true := by
      unfold is_tool_duplicate
      have hne := dictGet_some_ne_nil hkey
      simp [hne, hkey]
    rw [runFilterStep_rejected hdup]

theorem C7_registry_monotone_witness :
    (runFilter [] ([(⟨"Foo".toList, "c".toList, "d".toList, [], 1⟩, none)] ++
        [(⟨"FOO".toList, "c".toList, "d".toList, [], 1⟩, some false)])).2
      = (runFilter [] [(⟨"Foo".toList, "c".toList, "d".toList, [], 1⟩, none)]).2 := by
  refine (C7_registry_monotone [] [(⟨"Foo".toList, "c".toList, "d".toList, [], 1⟩, none)]).2.2
    ⟨"Foo".toList, "c".toList, "d".toList, [], 1⟩ ?_
    ⟨"FOO".toList, "c".toList, "d".toList, [], 1⟩ (some false) (by decide)
  norm_num [runFilter, runFilterStep, is_tool_duplicate]

/-! ### Line lemmas for the document merger -/

theorem splitNL_ne_nil (s : List Char) : splitNL s ≠ [] := by
  cases s with
  | nil => simp [splitNL]
  | cons c cs =>
    unfold splitNL
    split
    · simp
    · split <;> simp

theorem splitNL_cons_nl (cs : List Char) : splitNL ('\n' :: cs) = [] :: splitNL cs := by
  simp [splitNL]

theorem splitNL_cons {c : Char} (h : ¬c = '\n') (cs : List Char) :
    splitNL (c :: cs)
      = match splitNL cs with
        | l :: ls => (c :: l) :: ls
        | [] => [[c]] := by
  simp [splitNL, h]

theorem splitNL_append (a b : List Char) :
    splitNL (a ++ '\n' :: b) = splitNL a ++ splitNL b := by
  induction a with
  | nil => simp [splitNL_cons_nl, splitNL]
  | cons c cs ih =>
    by_cases h : c = '\n'
    · subst h
      rw [List.cons_append, splitNL_cons_nl, splitNL_cons_nl, ih]
      rfl
    · obtain ⟨l, ls, hls⟩ : ∃ l ls, splitNL cs = l :: ls := by
        cases hh : splitNL cs with
        | nil => exact absurd hh (splitNL_ne_nil cs)
        | cons l ls => exact ⟨l, ls, rfl⟩
      rw [List.cons_append, splitNL_cons h, splitNL_cons h, ih, hls]
      rfl

theorem startsWithL_cons {p : Char} {ps s : List Char}
    (h : startsWithL (p :: ps) s = true) : ∃ r, s = p :: r := by
  cases s with
  | nil => simp [startsWithL] at h
  | cons c cs =>
    simp only [startsWithL, Bool.and_eq_true, beq_iff_eq] at h
    exact ⟨cs, by rw [h.1]⟩

theorem findSubstr_startsWith {pat s : List Char} {i : Nat}
    (h : findSubstr pat s = some i) : startsWithL pat (s.drop i) = true := by
  induction s generalizing i with
  | nil =>
    unfold findSubstr at h
    split at h
    · cases h
      assumption
    · cases h
  | cons c cs ih =>
    unfold findSubstr at h
    split at h
    · cases h
      assumption
    · rcases Option.map_eq_some'.mp h with ⟨j, hj, hij⟩
      rw [← hij]
      exact ih hj

theorem sectionEnd_boundary (content : List Char) (startPos : Nat) :
    content.drop (sectionEnd content startPos) = []
    ∨ ∃ r, content.drop (sectionEnd content startPos) = '\n' :: r := by
  unfold sectionEnd
  cases hfind : findSubstr "\n## ".toList (content.drop startPos) with
  | none => exact Or.inl (List.drop_length content)
  | some j =>
    right
    show ∃ r, content.drop (startPos + j) = '\n' :: r
    have hs := findSubstr_startsWith hfind
    rw [List.drop_drop] at hs
    have hpat : "\n## ".toList = '\n' :: "## ".toList := rfl
    rw [hpat] at hs
    obtain ⟨r, hr⟩ := startsWithL_cons hs
    exact ⟨r, hr⟩

theorem lines_sublist_splice (s mid : List Char) (e : Nat)
    (h : s.drop e = [] ∨ ∃ r, s.drop e = '\n' :: r) :
    (splitNL s).Sublist (splitNL (s.take e ++ '\n' :: (mid ++ '\n' :: s.drop e))) := by
  rcases h with h | ⟨r, h⟩
  · have hts : s.take e = s := by
      have hsplit := List.take_append_drop e s
      rwa [h, List.append_nil] at hsplit
    rw [h, hts, splitNL_append]
    exact List.sublist_append_left _ _
  · have hts : s.take e ++ '\n' :: r = s := by
      have hsplit := List.take_append_drop e s
      rwa [h] at hsplit
    conv_lhs => rw [← hts]
    rw [h, splitNL_append]
    rw [splitNL_append]
    have hnl : splitNL (mid ++ '\n' :: ('\n' :: r)) = splitNL mid ++ [] :: splitNL r := by
      rw [splitNL_append]
      rfl
    rw [hnl]
    refine List.Sublist.append_left ?_ _
    exact List.Sublist.trans (List.sublist_cons_self _ _) (List.sublist_append_right _ _)

theorem lines_sublist_insertIntoCategory (content category : List Char)
    (entries : List (List Char)) :
    (splitNL content).Sublist (splitNL (insertIntoCategory content category entries)) := by
  unfold insertIntoCategory
  split
  · exact List.Sublist.refl _
  · split
    · exact List.Sublist.refl _
    · exact lines_sublist_splice content (joinLines entries) _ (sectionEnd_boundary content _)

/-! ### C5: the merge never removes or reorders existing lines -/

/-- C5: for every original document and every non-empty accepted candidate
list, the lines of the original are a sublist (all present, in the same
relative order) of the lines of the merger's output: every insertion happens
at a line boundary, as whole lines. -/
theorem C5_no_regression (content : List Char) (tools : List Tool) (hne : tools ≠ []) :
    (splitNL content).Sublist (splitNL (update_readme_text content tools)) := by
  unfold update_readme_text
  rw [if_neg hne]
  generalize groupByCategory tools = gs
  induction gs generalizing content with
  | nil => exact List.Sublist.refl _
  | cons g rest ih =>
    simp only [List.foldl_cons]
    exact List.Sublist.trans
      (lines_sublist_insertIntoCategory content g.1 (g.2.map formatEntry)) (ih _)

theorem C5_no_regression_witness :
    (splitNL "# T\n## CSS Tools\n- [A](u) - d\n## Testing Tools\n- [B](v) - e\n".toList).Sublist
      (splitNL (update_readme_text
        "# T\n## CSS Tools\n- [A](u) - d\n## Testing Tools\n- [B](v) - e\n".toList
        [⟨"NewTool".toList, "CSS Tools".toList, "desc".toList, "https://n.io".toList, 1⟩])) :=
  C5_no_regression _ _ (by simp)

/-! ### C6: empty merges and runs write nothing -/

/-- C6: merging an empty accepted set returns the document unchanged
(`update_readme` returns before touching the file, source lines 365-367), and
the driver performs zero writes when no posts were found or when the filter
accepted nothing (source lines 437-439 and 459-469); the Boolean component of
`runDriver` records whether the file was written. -/
theorem C6_empty_merge_noop (kp : Bool) (content : List Char) (existing : Registry)
    (posts : List Post) (found : List (Tool × Option Bool)) :
    update_readme_text content [] = content
    ∧ (posts = [] → runDriver kp content existing posts found = (content, false))
    ∧ ((runFilter existing found).2 = [] →
        runDriver kp content existing posts found = (content, false)) := by
  refine ⟨rfl, ?_, ?_⟩
  · intro h
    unfold runDriver
    rw [if_pos h]
  · intro h
    unfold runDriver
    by_cases hp : posts = []
    · rw [if_pos hp]
    · rw [if_neg hp]
      simp [h]

theorem C6_empty_merge_noop_witness :
    update_readme_text "abc".toList [] = "abc".toList
    ∧ runDriver true "abc".toList [] [] [] = ("abc".toList, false)
    ∧ runDriver true "abc".toList [] [⟨"u".toList, "t".toList, [], []⟩] []
        = ("abc".toList, false) :=
  ⟨(C6_empty_merge_noop true "abc".toList [] [] []).1,
   (C6_empty_merge_noop true "abc".toList [] [] []).2.1 rfl,
   (C6_empty_merge_noop true "abc".toList [] [⟨"u".toList, "t".toList, [], []⟩] []).2.2 rfl⟩

/-! ### C9: a category with no matching heading is silently skipped -/

theorem insertIntoCategory_missing (content category : List Char)
    (entries : List (List Char))
    (h : findSubstr ("## ".toList ++ category ++ ['\n']) content = none) :
    insertIntoCategory content category entries = content := by
  unfold insertIntoCategory
  rw [h]

theorem mem_addToGroups {acc : List (List Char × List Tool)} {t : Tool}
    {p : List Char × List Tool} (h : p ∈ addToGroups acc t) :
    p ∈ acc ∨ p.1 = t.category := by
  unfold addToGroups at h
  split at h
  · rcases List.mem_map.mp h with ⟨q, hq, hfq⟩
    by_cases hqc : q.1 = t.category
    · right
      rw [← hfq]
      simp [hqc]
    · left
      rw [← hfq]
      simp only [if_neg hqc]
      exact hq
  · rcases List.mem_append.mp h with h1 | h1
    · exact Or.inl h1
    · right
      simp only [List.mem_singleton] at h1
      rw [h1]

theorem mem_groupByCategory_key (ts : List Tool) :
    ∀ acc p, p ∈ ts.foldl addToGroups acc →
      p ∈ acc ∨ ∃ t ∈ ts, p.1 = t.category := by
  induction ts with
  | nil =>
    intro acc p h
    simp only [List.foldl_nil] at h
    exact Or.inl h
  | cons x rest ih =>
    intro acc p h
    simp only [List.foldl_cons] at h
    rcases ih _ p h with h1 | ⟨t, ht, hc⟩
    · rcases mem_addToGroups h1 with h2 | h2
      · exact Or.inl h2
      · exact Or.inr ⟨x, by simp, h2⟩
    · exact Or.inr ⟨t, by simp [ht], hc⟩

theorem foldl_insert_missing (gs : List (List Char × List Tool)) (content : List Char)
    (h : ∀ p ∈ gs, findSubstr ("## ".toList ++ p.1 ++ ['\n']) content = none) :
    gs.foldl (fun c p => insertIntoCategory c p.1 (p.2.map formatEntry)) content
      = content := by
  induction gs with
  | nil => rfl
  | cons g rest ih =>
    simp only [List.foldl_cons]
    rw [insertIntoCategory_missing _ _ _ (h g (by simp))]
    exact ih fun p hp => h p (by simp [hp])

/-- C9: a category whose heading line is absent from the document is silently
skipped: the per-category update returns the document unchanged, no section
is created, and when every accepted category is absent the whole merge leaves
the document unchanged. -/
theorem C9_missing_heading_skip :
    (∀ content category entries,
        findSubstr ("## ".toList ++ category ++ ['\n']) content = none →
        insertIntoCategory content category entries = content)
    ∧ (∀ content tools,
        (∀ t ∈ tools, findSubstr ("## ".toList ++ t.category ++ ['\n']) content = none) →
        update_readme_text content tools = content) := by
  refine ⟨insertIntoCategory_missing, ?_⟩
  intro content tools h
  unfold update_readme_text
  by_cases ht : tools = []
  · rw [if_pos ht]
  · rw [if_neg ht]
    apply foldl_insert_missing
    intro p hp
    rcases mem_groupByCategory_key tools [] p hp with h1 | ⟨t, htt, hc⟩
    · simp at h1
    · rw [hc]
      exact h t htt

theorem C9_missing_heading_skip_witness :
    insertIntoCategory "# X\n## A\n- [a](u) - d\n".toList "Testing Tools".toList
      ["- [N](v) - e".toList] = "# X\n## A\n- [a](u) - d\n".toList :=
  C9_missing_heading_skip.1 _ _ _ (by decide)

/-! ### C8: batch partial-failure isolation -/

theorem buildPostsData_nil_of_all_empty {fetch : Post → List Char} :
    ∀ (ps : List Post) (i : Nat), (∀ p ∈ ps, fetch p = []) →
      buildPostsData fetch i ps = [] := by
  intro ps
  induction ps with
  | nil => intro i _; rfl
  | cons p rest ih =>
    intro i h
    unfold buildPostsData
    rw [if_pos (h p (by simp))]
    exact ih (i + 1) fun q hq => h q (by simp [hq])

theorem buildPostsData_mem {fetch : Post → List Char} :
    ∀ (ps : List Post) (i : Nat) (d : PostData), d ∈ buildPostsData fetch i ps →
      i ≤ d.id ∧ ∃ p, ps.get? (d.id - i) = some p ∧ fetch p ≠ [] := by
  intro ps
  induction ps with
  | nil =>
    intro i d h
    simp [buildPostsData] at h
  | cons p rest ih =>
    intro i d h
    unfold buildPostsData at h
    by_cases hf : fetch p = []
    · rw [if_pos hf] at h
      obtain ⟨hle, q, hq, hqne⟩ := ih (i + 1) d h
      refine ⟨by omega, q, ?_, hqne⟩
      have hsub : d.id - i = (d.id - (i + 1)) + 1 := by omega
      rw [hsub]
      simpa using hq
    · rw [if_neg hf] at h
      simp only [List.mem_cons] at h
      rcases h with h | h
      · have hid : d.id = i := by rw [h]
        refine ⟨le_of_eq hid.symm, p, ?_, hf⟩
        rw [hid, Nat.sub_self]
        rfl
      · obtain ⟨hle, q, hq, hqne⟩ := ih (i + 1) d h
        refine ⟨by omega, q, ?_, hqne⟩
        have hsub : d.id - i = (d.id - (i + 1)) + 1 := by omega
        rw [hsub]
        simpa using hq

/-- C8: the batch analyzer is total in the embedding (it never raises: every
external failure is a caught branch). Posts whose retrieval yields empty text
are excluded from the classifier input; a batch whose posts all fail makes
zero classifier calls (Boolean component `false`) and yields zero candidates;
and every failure mode of the classification call — the call raising, no
`{...}` in the reply, unparseable JSON — yields zero candidates. -/
theorem C8_batch_isolation (fetch : Post → List Char) (classify : ClassifierResult)
    (batch : List Post) :
    ((∀ p ∈ batch, fetch p = []) → analyze_posts_batch fetch classify batch = ([], false))
    ∧ (∀ d ∈ buildPostsData fetch 0 batch, ∃ p, batch.get? d.id = some p ∧ fetch p ≠ [])
    ∧ ((classify = ClassifierResult.apiError ∨ classify = ClassifierResult.noJsonMatch
          ∨ classify = ClassifierResult.badJson) →
        (analyze_posts_batch fetch classify batch).1 = []) := by
  refine ⟨?_, ?_, ?_⟩
  · intro h
    unfold analyze_posts_batch
    rw [if_pos (buildPostsData_nil_of_all_empty batch 0 h)]
  · intro d hd
    obtain ⟨_, p, hp, hpne⟩ := buildPostsData_mem batch 0 d hd
    rw [Nat.sub_zero] at hp
    exact ⟨p, hp, hpne⟩
  · intro h
    rcases h with rfl | rfl | rfl <;> (unfold analyze_posts_batch; split <;> rfl)

theorem C8_batch_isolation_witness :
    analyze_posts_batch (fun _ => []) ClassifierResult.apiError
      [⟨"u".toList, "t".toList, [], []⟩] = ([], false)
    ∧ (analyze_posts_batch (fun _ => "a long enough body".toList)
        ClassifierResult.noJsonMatch [⟨"u".toList, "t".toList, [], []⟩]).1 = [] := by
  constructor
  · exact (C8_batch_isolation (fun _ => []) ClassifierResult.apiError
      [⟨"u".toList, "t".toList, [], []⟩]).1 (fun p _ => rfl)
  · exact (C8_batch_isolation (fun _ => "a long enough body".toList)
      ClassifierResult.noJsonMatch [⟨"u".toList, "t".toList, [], []⟩]).2.2
      (Or.inr (Or.inl rfl))

/-! ### C10: short names escape the fallback seeding and the exact tier -/

theorem mem_dictInsert {d : Registry} {k : List Char} {v : KnownTool}
    {p : List Char × KnownTool} (h : p ∈ dictInsert d k v) :
    p ∈ d ∨ p = (k, v) := by
  unfold dictInsert at h
  split at h
  · rcases List.mem_map.mp h with ⟨q, hq, hfq⟩
    by_cases hqk : q.1 = k
    · right
      rw [← hfq]
      simp [hqk]
    · left
      rw [← hfq]
      simp only [if_neg hqk]
      exact hq
  · rcases List.mem_append.mp h with h1 | h1
    · exact Or.inl h1
    · right
      simpa using h1

theorem fallbackStep_valid {tools : Registry} {m : List Char × List Char × List Char}
    {p : List Char × KnownTool} (hall : ∀ q ∈ tools, validFallbackEntry q)
    (hp : p ∈ fallbackStep tools m) : validFallbackEntry p := by
  unfold fallbackStep at hp
  split at hp
  · rename_i hcond
    rcases mem_dictInsert hp with h1 | h1
    · exact hall p h1
    · rw [h1]
      refine ⟨hcond.1, ?_, ?_, rfl⟩
      · rcases hh : startsWithL "http".toList (pyStrip m.1) with _ | _
        · rfl
        · exact absurd (Or.inl hh) hcond.2
      · rcases hh : startsWithL "www".toList (pyStrip m.1) with _ | _
        · rfl
        · exact absurd (Or.inr hh) hcond.2
  · exact hall p hp

theorem fallback_fold_valid (ms : List (List Char × List Char × List Char)) :
    ∀ tools : Registry, (∀ q ∈ tools, validFallbackEntry q) →
      ∀ p ∈ ms.foldl fallbackStep tools, validFallbackEntry p := by
  induction ms with
  | nil =>
    intro tools h p hp
    simpa using h p (by simpa using hp)
  | cons m rest ih =>
    intro tools h p hp
    simp only [List.foldl_cons] at hp
    exact ih _ (fun q hq => fallbackStep_valid h hq) p hp

/-- C10: every entry seeded by the regex fallback has a stripped display name
longer than three characters not starting with `http`/`www`, keyed by its
lowercased name. Consequently, for a document listing `Git` (three
characters) alongside `ESLint`, the seeded registry contains `eslint` but no
`git` key, and a later candidate named exactly `Git` (with no URL) passes the
exact-match tier unrecognized — `is_tool_duplicate` can return false for it
even though the tool is documented. -/
theorem C10_fallback_short_names :
    (∀ content p, p ∈ get_existing_tools_fallback content → validFallbackEntry p)
    ∧ dictGet "git".toList (get_existing_tools_fallback
        "- [ESLint](https://eslint.org) - Linter\n- [Git](https://git-scm.com) - Version control\n".toList)
        = none
    ∧ (dictGet "eslint".toList (get_existing_tools_fallback
        "- [ESLint](https://eslint.org) - Linter\n- [Git](https://git-scm.com) - Version control\n".toList)).isSome
        = true
    ∧ is_tool_duplicate "Git".toList [] (get_existing_tools_fallback
        "- [ESLint](https://eslint.org) - Linter\n- [Git](https://git-scm.com) - Version control\n".toList)
        (some false) = false := by
  refine ⟨?_, by decide, by decide, by decide⟩
  intro content p hp
  exact fallback_fold_valid _ [] (by simp) p hp

theorem C10_fallback_short_names_witness :
    validFallbackEntry ("eslint".toList,
      ⟨"ESLint".toList, "https://eslint.org".toList, "Linter".toList⟩) :=
  C10_fallback_short_names.1
    "- [ESLint](https://eslint.org) - Linter\n- [Git](https://git-scm.com) - Version control\n".toList
    ("eslint".toList, ⟨"ESLint".toList, "https://eslint.org".toList, "Linter".toList⟩)
    (by decide)

end Scraper
